import Mathlib

/-!
Verification development for the AbstractVoice voice-interaction runtime.

The definitions below are shallow embeddings of the Python sources:
  abstractvoice/audio/resample.py, abstractvoice/tts/tts_engine.py,
  abstractvoice/tts/adapter_tts_engine.py, abstractvoice/vm/core.py,
  abstractvoice/vm/manager.py, abstractvoice/vm/stt_mixin.py,
  abstractvoice/vm/tts_mixin.py, abstractvoice/stop_phrase.py,
  abstractvoice/recognition.py, abstractvoice/text_sanitize.py.
Machine floats of the source are modelled as exact rationals, Python ints as
Int or Nat, Python strings as Lean strings or lists of characters.
-/

namespace AbstractVoice

/-! ## Resampler (abstractvoice/audio/resample.py) -/

/-- Python round() on a rational: round half to even (banker rounding), as
used by linear_resample_mono via int(round(len(audio) * ratio)). -/
def roundHalfEven (q : ℚ) : ℤ :=
  let f : ℤ := ⌊q⌋
  if q - f < 1/2 then f
  else if (1:ℚ)/2 < q - f then f + 1
  else if Even f then f else f + 1

/-- One output sample of numpy.interp over the uniform grids produced by
np.linspace(0, 1, len(fp)) and np.linspace(0, 1, newLen): piecewise linear
interpolation of fp at position j of the new grid.  (Sample values are
modelled exactly over the rationals.) -/
def npInterp (fp : List ℚ) (newLen j : ℕ) : ℚ :=
  let n := fp.length
  if n = 0 then 0
  else if n = 1 then fp.headD 0
  else
    let x : ℚ := if newLen ≤ 1 then 0 else (j : ℚ) / ((newLen : ℚ) - 1)
    let t : ℚ := x * ((n : ℚ) - 1)
    let k : ℕ := min (⌊t⌋).toNat (n - 2)
    let y0 := fp.getD k 0
    let y1 := fp.getD (k + 1) 0
    y0 + (t - (k : ℚ)) * (y1 - y0)

/-- Embedding of linear_resample_mono(audio, src_sr, dst_sr)
(abstractvoice/audio/resample.py lines 6-24).  The audio frame is a list of
rational samples; the source also passes through when audio is None, which a
total list-valued embedding does not need. -/
def linear_resample_mono (audio : List ℚ) (src_sr dst_sr : ℤ) : List ℚ :=
  if src_sr ≤ 0 ∨ dst_sr ≤ 0 then audio
  else if src_sr = dst_sr then audio
  else if audio.length < 2 then audio
  else
    let rto : ℚ := (dst_sr : ℚ) / (src_sr : ℚ)
    let newLen : ℕ := max 1 (roundHalfEven ((audio.length : ℚ) * rto)).toNat
    (List.range newLen).map (fun j => npInterp audio newLen j)

/-! ## NonBlockingAudioPlayer state (abstractvoice/tts/tts_engine.py) -/

/-- State of NonBlockingAudioPlayer: the playback queue of frames, the
in-flight frame and cursor, the playing/paused flags, the
audio-started flag, and whether an output stream is open. -/
structure PlayerState where
  hasStream : Bool
  queue : List (List ℚ)
  isPlaying : Bool
  paused : Bool
  audioStarted : Bool
  currentAudio : Option (List ℚ)
  currentPosition : ℕ
  deriving DecidableEq

namespace NonBlockingAudioPlayer

/-- Embedding of NonBlockingAudioPlayer.clear_queue
(abstractvoice/tts/tts_engine.py lines 339-347): drain the queue, drop the
in-flight frame and reset the cursor.  No other field is written. -/
def clear_queue (p : PlayerState) : PlayerState :=
  { p with queue := [], currentAudio := none, currentPosition := 0 }

/-- Embedding of NonBlockingAudioPlayer.stop_stream
(abstractvoice/tts/tts_engine.py lines 265-280): close the stream, clear the
playing and paused flags, then clear the queue. -/
def stop_stream (p : PlayerState) : PlayerState :=
  clear_queue { p with hasStream := false, isPlaying := false, paused := false }

end NonBlockingAudioPlayer

/-- Embedding of AdapterTTSEngine.stop(close_stream)
(abstractvoice/tts/adapter_tts_engine.py lines 159-192).  Returns the new
player state and the boolean result.  With close_stream=false the stream is
kept open and the playback state is flushed field by field. -/
def engineStop (closeStream : Bool) (p : PlayerState) : PlayerState × Bool :=
  if ¬(p.hasStream = true ∨ p.isPlaying = true) then (p, false)
  else if closeStream then (NonBlockingAudioPlayer.stop_stream p, true)
  else
    let p1 := NonBlockingAudioPlayer.clear_queue p
    ({ p1 with isPlaying := false, audioStarted := false, currentAudio := none,
               currentPosition := 0, paused := false }, true)

/-! ## Recognizer pause flags and the turn state machine
(abstractvoice/recognition.py, abstractvoice/vm/core.py) -/

/-- The recognizer flags toggled by the turn state machine, together with the
recognizer aec_enabled switch (abstractvoice/recognition.py). -/
structure RecFlags where
  listeningPaused : Bool
  transcriptionsPaused : Bool
  ttsInterruptEnabled : Bool
  aecEnabled : Bool
  deriving DecidableEq

namespace VoiceRecognizer

/-- VoiceRecognizer.pause_tts_interrupt (abstractvoice/recognition.py). -/
def pause_tts_interrupt (r : RecFlags) : RecFlags :=
  { r with ttsInterruptEnabled := false }

/-- VoiceRecognizer.resume_tts_interrupt (abstractvoice/recognition.py). -/
def resume_tts_interrupt (r : RecFlags) : RecFlags :=
  { r with ttsInterruptEnabled := true }

/-- VoiceRecognizer.pause_listening (abstractvoice/recognition.py). -/
def pause_listening (r : RecFlags) : RecFlags :=
  { r with listeningPaused := true }

/-- VoiceRecognizer.resume_listening (abstractvoice/recognition.py). -/
def resume_listening (r : RecFlags) : RecFlags :=
  { r with listeningPaused := false }

/-- VoiceRecognizer.pause_transcriptions (abstractvoice/recognition.py). -/
def pause_transcriptions (r : RecFlags) : RecFlags :=
  { r with transcriptionsPaused := true }

/-- VoiceRecognizer.resume_transcriptions (abstractvoice/recognition.py). -/
def resume_transcriptions (r : RecFlags) : RecFlags :=
  { r with transcriptionsPaused := false }

end VoiceRecognizer

/-- Embedding of VoiceManagerCore._on_tts_start (abstractvoice/vm/core.py
lines 42-76) restricted to its effect on the recognizer flags.  In full mode
the source returns immediately (its comment: always allow speech-triggered
TTS interruption); it never reads the recognizer aec_enabled flag. -/
def onTtsStart (mode : String) (r : RecFlags) : RecFlags :=
  if mode = "full" then r
  else if mode = "wait" then VoiceRecognizer.pause_listening r
  else if mode = "stop" then
    VoiceRecognizer.pause_transcriptions (VoiceRecognizer.pause_tts_interrupt r)
  else if mode = "ptt" then
    VoiceRecognizer.pause_transcriptions (VoiceRecognizer.pause_tts_interrupt r)
  else r

/-- Embedding of VoiceManagerCore._on_tts_end (abstractvoice/vm/core.py
lines 78-96) restricted to its effect on the recognizer flags. -/
def onTtsEnd (mode : String) (r : RecFlags) : RecFlags :=
  if mode = "full" then VoiceRecognizer.resume_tts_interrupt r
  else if mode = "wait" then VoiceRecognizer.resume_listening r
  else if mode = "stop" ∨ mode = "ptt" then
    VoiceRecognizer.resume_transcriptions (VoiceRecognizer.resume_tts_interrupt r)
  else r

/-! ## VoiceManager facade state
(abstractvoice/vm/manager.py, stt_mixin.py, tts_mixin.py) -/

/-- The VoiceManager state relevant to the turn state machine: the voice
mode string, the presence of the TTS engine and of the recognizer, the
recognizer flags, the player state behind the engine, and the cloned-speech
cancel token flag. -/
structure VMState where
  voiceMode : String
  hasTtsEngine : Bool
  hasRecognizer : Bool
  recFlags : RecFlags
  player : PlayerState
  cancelSet : Bool
  deriving DecidableEq

/-- Default voice mode installed by VoiceManager.__init__
(abstractvoice/vm/manager.py line 97). -/
def initVoiceMode : String := "wait"

/-- Embedding of SttMixin.set_voice_mode (abstractvoice/vm/stt_mixin.py
lines 111-115): accept exactly full, wait, stop, ptt; otherwise leave the
mode unchanged and return false. -/
def set_voice_mode (s : VMState) (mode : String) : VMState × Bool :=
  if mode ∈ (["full", "wait", "stop", "ptt"] : List String) then
    ({ s with voiceMode := mode }, true)
  else (s, false)

/-- The on-end routing as dispatched by the manager: _on_tts_end returns
immediately when no recognizer is attached (abstractvoice/vm/core.py
lines 79-81). -/
def vmOnTtsEnd (s : VMState) : VMState :=
  if s.hasRecognizer = false then s
  else { s with recFlags := onTtsEnd s.voiceMode s.recFlags }

/-- Embedding of TtsMixin.stop_speaking (abstractvoice/vm/tts_mixin.py
lines 442-471): return false when no engine is attached; otherwise set the
cloned cancel token, stop the engine keeping the stream open, and finally
invoke the on-end routing to restore the recognizer state. -/
def stop_speaking (s : VMState) : VMState × Bool :=
  if s.hasTtsEngine = false then (s, false)
  else
    let s1 := { s with cancelSet := true }
    let pr := engineStop false s1.player
    let s2 := { s1 with player := pr.1 }
    (vmOnTtsEnd s2, pr.2)

/-- Embedding of TtsMixin.set_speed (abstractvoice/vm/tts_mixin.py
lines 493-497): accept 0.5 <= speed <= 2.0 and store it; otherwise reject
and keep the stored speed. -/
def set_speed (stored speed : ℚ) : ℚ × Bool :=
  if 0.5 ≤ speed ∧ speed ≤ 2.0 then (speed, true) else (stored, false)

/-- The effective speed chosen by TtsMixin.speak (abstractvoice/vm/tts_mixin.py
line 180): sp = speed if speed != 1.0 else self.speed. -/
def speakEffectiveSpeed (speed stored : ℚ) : ℚ :=
  if speed ≠ 1 then speed else stored

/-! ## Cloned-voice cancellation tokens (abstractvoice/vm/tts_mixin.py,
abstractvoice/vm/manager.py)

Tokens (threading.Event objects) are modelled by their allocation identity:
a counter gives every allocated Event a distinct natural number.  The
manager state tracks the currently stored token (_cloned_cancel_event), the
identities of every Event whose set() has been called, and the token
captured by each spawned synthesis worker, in spawn order. -/

/-- Manager-side token state for cloned-voice speak calls. -/
structure CloneState where
  nextToken : ℕ
  current : ℕ
  cancelled : List ℕ
  workers : List ℕ
  deriving DecidableEq

/-- VoiceManager.__init__ allocates the first cancel Event
(abstractvoice/vm/manager.py line 88): token 0 is stored, token 1 is the
next identity, nothing is cancelled, no worker has been spawned. -/
def initCloneState : CloneState :=
  { nextToken := 1, current := 0, cancelled := [], workers := [] }

/-- One speak(text, voice=vid) call (abstractvoice/vm/tts_mixin.py
lines 199-215, 375): stop_speaking sets the stored cancel Event, the old
Event is set again defensively, a fresh Event is allocated and stored, and
the synthesis worker is spawned capturing exactly the fresh token. -/
def speakClone (s : CloneState) : CloneState :=
  { nextToken := s.nextToken + 1
    current := s.nextToken
    cancelled := s.current :: s.cancelled
    workers := s.workers ++ [s.nextToken] }

/-- The manager state after n cloned speak calls. -/
def runSpeaks : ℕ → CloneState
  | 0 => initCloneState
  | n + 1 => speakClone (runSpeaks n)

/-- A worker checks only the token it captured at start
(abstractvoice/vm/tts_mixin.py lines 244, 273, 304: if cancel.is_set()
the worker returns or breaks before enqueuing); it may enqueue audio only
while that token has not been set. -/
def workerCanEnqueue (s : CloneState) (tok : ℕ) : Bool :=
  !(s.cancelled.contains tok)

/-! ## Markdown sanitizer (abstractvoice/text_sanitize.py)

The three regular expressions of the source are embedded as direct scanners
over lists of characters:
  _MD_HEADER_RE  (?m)^[ \t]*#{1,5}(?!#)[ \t]*(\S.*)$   replaced by group 1
  _MD_BOLD_RE    \*\*([^*\n]+?)\*\*                     replaced by group 1
  _MD_ITALIC_RE  (?<!\*)\*([^*\n]+?)\*(?!\*)            replaced by group 1
applied in this order, exactly as sanitize_markdown_for_speech does.  The
bold and italic scanners walk the text left to right like re.sub: at each
position they attempt a match and on failure advance one character; the
lazy inner group of the regex never contains a star or newline, so it is
the maximal run of such characters followed by the closing marker. -/

/-- Python regex whitespace class over ASCII (space, tab, newline, carriage
return, vertical tab, form feed). -/
def isPyWs (c : Char) : Bool :=
  c == ' ' || c == '\t' || c == '\n' || c == '\r' || c == '\x0b' || c == '\x0c'

/-- Split a text into its lines at newline characters, keeping empty lines,
mirroring how (?m)^...$ applies per line. -/
def splitOnNl : List Char → List (List Char)
  | [] => [[]]
  | c :: rest =>
      if c = '\n' then [] :: splitOnNl rest
      else
        match splitOnNl rest with
        | [] => [[c]]
        | l :: ls => (c :: l) :: ls

/-- Rejoin lines with newline characters. -/
def joinNl : List (List Char) → List Char
  | [] => []
  | [l] => l
  | l :: ls => l ++ '\n' :: joinNl ls

/-- One line under _MD_HEADER_RE: when the line is leading blanks, one to
five hashes not followed by another hash, more blanks, then a non-whitespace
character, the line is replaced by its tail from that character on;
otherwise it is unchanged. -/
def stripHeaderLine (line : List Char) : List Char :=
  let rest1 := line.dropWhile (fun c => c == ' ' || c == '\t')
  let hashes := rest1.takeWhile (fun c => c == '#')
  let rest2 := rest1.dropWhile (fun c => c == '#')
  if 1 ≤ hashes.length ∧ hashes.length ≤ 5 then
    let rest3 := rest2.dropWhile (fun c => c == ' ' || c == '\t')
    match rest3 with
    | [] => line
    | c :: _ => if isPyWs c then line else rest3
  else line

/-- The header pass of sanitize_markdown_for_speech. -/
def headerPass (s : List Char) : List Char :=
  joinNl ((splitOnNl s).map stripHeaderLine)

/-- Attempt the tail of a bold match just after an opening double star:
a nonempty run without stars or newlines, then a closing double star.
Returns the inner group and the rest of the text after the match. -/
def tryBold (s : List Char) : Option (List Char × List Char) :=
  let inner := s.takeWhile (fun c => !(c == '*') && !(c == '\n'))
  if inner.isEmpty then none
  else
    match s.drop inner.length with
    | '*' :: '*' :: rest2 => some (inner, rest2)
    | _ => none

/-- The bold pass, fuelled by the input length (each step consumes at least
one character, so fuel equal to the length always suffices). -/
def boldPassF : ℕ → List Char → List Char
  | 0, s => s
  | _ + 1, [] => []
  | fuel + 1, c :: rest =>
      match c, rest with
      | '*', '*' :: rest2 =>
          match tryBold rest2 with
          | some pr => pr.1 ++ boldPassF fuel pr.2
          | none => '*' :: boldPassF fuel ('*' :: rest2)
      | _, _ => c :: boldPassF fuel rest

/-- Attempt the tail of an italic match just after an opening single star:
a nonempty run without stars or newlines, then a closing star that is not
followed by another star. -/
def tryItalic (s : List Char) : Option (List Char × List Char) :=
  let inner := s.takeWhile (fun c => !(c == '*') && !(c == '\n'))
  if inner.isEmpty then none
  else
    match s.drop inner.length with
    | '*' :: '*' :: _ => none
    | '*' :: rest2 => some (inner, rest2)
    | _ => none

/-- The italic pass; the boolean records whether the previous character of
the original text was a star, implementing the lookbehind of the regex. -/
def italicPassF : ℕ → Bool → List Char → List Char
  | 0, _, s => s
  | _ + 1, _, [] => []
  | fuel + 1, prevStar, c :: rest =>
      if c == '*' then
        if prevStar then '*' :: italicPassF fuel true rest
        else
          match tryItalic rest with
          | some pr => pr.1 ++ italicPassF fuel true pr.2
          | none => '*' :: italicPassF fuel true rest
      else c :: italicPassF fuel false rest

/-- Embedding of sanitize_markdown_for_speech
(abstractvoice/text_sanitize.py lines 19-33): header pass, then bold pass,
then italic pass. -/
def sanitize_markdown_for_speech (s : String) : String :=
  let l1 := headerPass s.data
  let l2 := boldPassF l1.length l1
  let l3 := italicPassF l2.length false l2
  String.mk l3

/-- Embedding of _resolve_sanitize_syntax_arg
(abstractvoice/vm/tts_mixin.py lines 14-31): the alias flag overrides the
canonical flag, except that canonical opt-out combined with alias opt-in
raises a ValueError. -/
def resolveSanitizeFlag (canonical : Bool) (aliasFlag : Option Bool) :
    Except String Bool :=
  match aliasFlag with
  | none => Except.ok canonical
  | some a =>
      if canonical = false ∧ a = true then
        Except.error "pass only one of the two sanitize flags"
      else Except.ok a

/-- The text handed to the TTS engine or clone engine by TtsMixin.speak
(abstractvoice/vm/tts_mixin.py lines 184-186): sanitized exactly when the
resolved flag is true. -/
def speakText (text : String) (canonical : Bool) (aliasFlag : Option Bool) :
    Except String String :=
  match resolveSanitizeFlag canonical aliasFlag with
  | Except.error e => Except.error e
  | Except.ok true => Except.ok (sanitize_markdown_for_speech text)
  | Except.ok false => Except.ok text

/-! ## Stop-phrase matching (abstractvoice/stop_phrase.py)

Texts are lists of characters.  The source normalization is
re.sub(non-alphanumeric runs to a space) over text.lower(), strip, collapse
whitespace: every character that is not a lowercase ASCII letter or digit
after lowering acts as a separator, so the normalized text is exactly the
maximal alphanumeric runs joined by single spaces.  The embedding covers
the ASCII case mapping (the regex classes of the source are ASCII). -/

/-- ASCII lower-casing, as str.lower() acts on ASCII letters. -/
def asciiLower (c : Char) : Char :=
  if 65 ≤ c.toNat ∧ c.toNat ≤ 90 then Char.ofNat (c.toNat + 32) else c

/-- Lowercase ASCII letter or digit: the class [a-z0-9] of the source. -/
def isLowerAlnum (c : Char) : Bool :=
  (97 ≤ c.toNat && c.toNat ≤ 122) || (48 ≤ c.toNat && c.toNat ≤ 57)

/-- Character normalization: lower-case, keep alphanumerics, map every
other character (including whitespace) to a separator space. -/
def normChar (c : Char) : Char :=
  let lc := asciiLower c
  if isLowerAlnum lc then lc else ' '

/-- Accumulator worker for splitting on spaces (the accumulator holds the
current token reversed). -/
def splitSpAux : List Char → List Char → List (List Char)
  | [], acc => if acc.isEmpty then [] else [acc.reverse]
  | c :: rest, acc =>
      if c = ' ' then
        if acc.isEmpty then splitSpAux rest []
        else acc.reverse :: splitSpAux rest []
      else splitSpAux rest (c :: acc)

/-- Split a text on spaces into its nonempty tokens (Python str.split()). -/
def splitSp (s : List Char) : List (List Char) :=
  splitSpAux s []

/-- Join tokens with single spaces. -/
def joinToks : List (List Char) → List Char
  | [] => []
  | [t] => t
  | t :: ts => t ++ ' ' :: joinToks ts

/-- Embedding of normalize_stop_phrase (abstractvoice/stop_phrase.py
lines 14-20): lowercase, non-alphanumerics to spaces, strip and collapse
whitespace.  The result is the alphanumeric tokens joined by single
spaces. -/
def normalize_stop_phrase (s : List Char) : List Char :=
  joinToks (splitSp (s.map normChar))

/-- Levenshtein distance by its textbook recursion on leading characters.
This is the claim-side notion of edit distance; the theorem
levDist_eq_levRec identifies it with the DP of the source. -/
def levRec : List Char → List Char → ℕ
  | [], b => b.length
  | a, [] => a.length
  | x :: xs, y :: ys =>
      min (levRec xs (y :: ys) + 1)
        (min (levRec (x :: xs) ys + 1) (levRec xs ys + (if x = y then 0 else 1)))
termination_by a b => a.length + b.length

/-- One Levenshtein DP row step: walking the characters of b with the
previous row, producing the current row past its leading entry; curPrev is
the entry just written to the current row (cur[j-1] of the source). -/
def levRowAux : List Char → List ℕ → ℕ → Char → List ℕ
  | [], _, _, _ => []
  | cb :: bs, pj :: prest, curPrev, ca =>
      match prest with
      | [] => []
      | pj1 :: _ =>
          let cost := if ca = cb then 0 else 1
          let v := min (pj1 + 1) (min (curPrev + 1) (pj + cost))
          v :: levRowAux bs prest v ca
  | _ :: _, [], _, _ => []

/-- The Levenshtein DP of _levenshtein_leq (abstractvoice/stop_phrase.py
lines 38-55): fold the rows over the characters of a, starting from
range(len(b) + 1). -/
def levRows (b : List Char) : List Char → List ℕ → ℕ → List ℕ
  | [], prev, _ => prev
  | ca :: arest, prev, i => levRows b arest (i :: levRowAux b prev i ca) (i + 1)

/-- Levenshtein distance via the DP of the source: the last entry of the
final row. -/
def levDist (a b : List Char) : ℕ :=
  (levRows b a (List.range (b.length + 1)) 1).getLastD 0

/-- The DP row for a fixed first word pr (held reversed): entry j is the
distance between pr and the length-j prefix of the second word, the
consumed prefix being carried reversed in rq.  Used to state the loop
invariant of the DP. -/
def prevRow (pr : List Char) : List Char → List Char → List ℕ
  | [], rq => [levRec pr rq]
  | cb :: bs, rq => levRec pr rq :: prevRow pr bs (cb :: rq)

/-- Embedding of _levenshtein_leq (abstractvoice/stop_phrase.py lines
23-55) by its documented contract: true exactly when Levenshtein(a,b) is at
most maxDist.  The equal-string, nonpositive-bound, length-difference and
row-minimum early exits of the source are optimizations that do not change
this value. -/
def levenshtein_leq (a b : List Char) (maxDist : ℕ) : Bool :=
  levDist a b ≤ maxDist

/-- The token "stop". -/
def stopTok : List Char := "stop".data

/-- The token "ok". -/
def okTok : List Char := "ok".data

/-- The token "okay". -/
def okayTok : List Char := "okay".data

/-- The candidate tokens examined by the ok-stop tolerance: the token just
before the final one, and for a three-token text also the one before that
(candidates = [toks[-2]] + ([toks[-3]] when len(toks) == 3)). -/
def precedingCands (toks : List (List Char)) : List (List Char) :=
  if toks.length = 3 then [toks.getD 1 [], toks.getD 0 []]
  else [toks.getD 0 []]

/-- The special tolerance branch of is_stop_phrase
(abstractvoice/stop_phrase.py lines 82-89): for the phrases "ok stop" and
"okay stop" only, accept a two- or three-token text ending in "stop" whose
one or two preceding tokens contain one within Levenshtein distance one of
"ok" or "okay". -/
def specialOkStop (phraseToks toks : List (List Char)) : Bool :=
  if phraseToks = [okTok, stopTok] ∨ phraseToks = [okayTok, stopTok] then
    if (toks.length = 2 ∨ toks.length = 3) ∧ toks.getLastD [] = stopTok then
      (precedingCands toks).any (fun t =>
        levenshtein_leq t okTok 1 || levenshtein_leq t okayTok 1)
    else false
  else false

/-- Embedding of is_stop_phrase (abstractvoice/stop_phrase.py lines
58-102).  The source iterates over the set of normalized phrases; a set
changes only order and multiplicity, which the any-combinator ignores.
Falsy (empty) raw phrases and phrases normalizing to the empty string are
skipped exactly as in the source. -/
def is_stop_phrase (text : List Char) (phrases : List (List Char)) : Bool :=
  let normalized := normalize_stop_phrase text
  if normalized.isEmpty then false
  else
    phrases.any (fun p =>
      if p.isEmpty then false
      else
        let phrase := normalize_stop_phrase p
        if phrase.isEmpty then false
        else
          specialOkStop (splitSp phrase) (splitSp normalized) ||
          normalized == phrase ||
          (phrase ++ [' ']).isPrefixOf normalized ||
          (' ' :: phrase).isSuffixOf normalized)

/-- The special tolerance in the words of the specification: only for the
phrases "ok stop" and "okay stop", the text has exactly 2 or 3 tokens, ends
in "stop", and one of the one or two preceding tokens is within Levenshtein
distance 1 of "ok" or "okay". -/
def specialToleranceSpec (nt np : List Char) : Prop :=
  (np = "ok stop".data ∨ np = "okay stop".data) ∧
  ((splitSp nt).length = 2 ∨ (splitSp nt).length = 3) ∧
  (splitSp nt).getLastD [] = stopTok ∧
  ∃ t ∈ precedingCands (splitSp nt), levRec t okTok ≤ 1 ∨ levRec t okayTok ≤ 1

/-- The claim-side matching predicate, following the words of the
specification: after normalization of the text and of the phrases, the text
equals a phrase, or begins with the phrase followed by a space, or ends
with a space followed by the phrase, or satisfies the ok-stop tolerance;
and an empty normalized text never matches. -/
def stopPhraseSpec (text : List Char) (phrases : List (List Char)) : Prop :=
  normalize_stop_phrase text ≠ [] ∧
  ∃ p ∈ phrases,
    normalize_stop_phrase text = normalize_stop_phrase p ∨
    (normalize_stop_phrase p ++ [' ']) <+: normalize_stop_phrase text ∨
    (' ' :: normalize_stop_phrase p) <:+ normalize_stop_phrase text ∨
    specialToleranceSpec (normalize_stop_phrase text) (normalize_stop_phrase p)

/-- The apostrophe character. -/
def apos : Char := Char.ofNat 39

/-- The text of the specification example, with its apostrophe. -/
def dontStopNow : List Char := "don".data ++ apos :: "t stop now".data

/-! ## Rolling stop-phrase detector (abstractvoice/recognition.py) -/

/-- The stop phrase list installed by VoiceRecognizer.__init__
(abstractvoice/recognition.py line 106). -/
def stopPhrasesInit : List (List Char) := [stopTok, "ok stop".data, "okay stop".data]

/-- Embedding of VoiceRecognizer._match_stop_phrase
(abstractvoice/recognition.py lines 352-365): return the first configured
phrase (in list order, normalized) matching the normalized text exactly, as
a prefix followed by a space, or as a suffix preceded by a space.  This
helper has no ok-stop tolerance. -/
def match_stop_phrase (text : List Char) (phrases : List (List Char)) :
    Option (List Char) :=
  let normalized := normalize_stop_phrase text
  if normalized.isEmpty then none
  else
    ((phrases.filter (fun p => !p.isEmpty)).map normalize_stop_phrase).find?
      (fun ph => !ph.isEmpty &&
        (normalized == ph || (ph ++ [' ']).isPrefixOf normalized ||
         (' ' :: ph).isSuffixOf normalized))

/-- Python whitespace split of text.strip().split(): tokens of runs of
non-whitespace characters. -/
def splitWs (s : List Char) : List (List Char) :=
  splitSp (s.map (fun c => if isPyWs c then ' ' else c))

/-- The recognizer state touched by the rolling stop-phrase detector:
the byte ring, the rate-limit clock, the configured interval and window,
the confirmation counter and deadline, the sample rate, the phrase list,
and the activation flags. -/
structure StopDetectState where
  stopRing : List ℤ
  stopLastCheck : ℚ
  stopCheckIntervalS : ℚ
  stopWindowS : ℚ
  stopHitCount : ℕ
  stopHitDeadline : ℚ
  sampleRate : ℕ
  stopPhrases : List (List Char)
  transcriptionsPaused : Bool
  hasStopCallback : Bool
  deriving DecidableEq

/-- Detector state as initialized by VoiceRecognizer.__init__
(abstractvoice/recognition.py lines 106-121): empty ring, last check 0,
interval 0.6 s, window 2 s, no hits, deadline 0, 16 kHz; a stop callback is
installed by VoiceManager.listen. -/
def initStopDetect : StopDetectState :=
  { stopRing := [], stopLastCheck := 0, stopCheckIntervalS := 0.6,
    stopWindowS := 2, stopHitCount := 0, stopHitDeadline := 0,
    sampleRate := 16000, stopPhrases := stopPhrasesInit,
    transcriptionsPaused := false, hasStopCallback := true }

/-- Detector state during playback in STOP mode: the initial state with
transcriptions paused (pause_transcriptions invoked by the playback-start
routing). -/
def playbackStopDetect : StopDetectState :=
  { stopRing := [], stopLastCheck := 0, stopCheckIntervalS := 0.6,
    stopWindowS := 2, stopHitCount := 0, stopHitDeadline := 0,
    sampleRate := 16000, stopPhrases := stopPhrasesInit,
    transcriptionsPaused := true, hasStopCallback := true }

/-- Result of one detector call: the new state, the returned boolean, and
how many times stop_callback was invoked during the call. -/
structure StopDetectResult where
  state : StopDetectState
  fired : Bool
  callbackCalls : ℕ
  deriving DecidableEq

/-- Embedding of VoiceRecognizer._maybe_detect_stop_phrase_continuous
(abstractvoice/recognition.py lines 367-424).  The wall-clock reads
time.time() are the parameters now (rate limit and last-check update), now2
(confirmation window) and now3 (cooldown); the transcription of the ring is
an oracle parameter, none standing for the exception path of the source. -/
def maybe_detect_stop_phrase_continuous (s : StopDetectState) (chunk : List ℤ)
    (now now2 now3 : ℚ) (transcript : Option (List Char)) : StopDetectResult :=
  if ¬(s.transcriptionsPaused = true ∧ s.hasStopCallback = true) then ⟨s, false, 0⟩
  else
    let ring1 := s.stopRing ++ chunk
    let maxBytes : ℤ := ⌊(s.sampleRate : ℚ) * s.stopWindowS * 2⌋
    let ring2 :=
      if 0 < maxBytes ∧ maxBytes.toNat < ring1.length
      then ring1.drop (ring1.length - maxBytes.toNat) else ring1
    if now - s.stopLastCheck < s.stopCheckIntervalS then
      ⟨{ s with stopRing := ring2 }, false, 0⟩
    else
      let s1 := { s with stopRing := ring2, stopLastCheck := now }
      match transcript with
      | none => ⟨s1, false, 0⟩
      | some text =>
          if 4 < (splitWs text).length then ⟨{ s1 with stopHitCount := 0 }, false, 0⟩
          else
            match match_stop_phrase text s.stopPhrases with
            | none => ⟨s1, false, 0⟩
            | some matched =>
                if matched = stopTok then
                  let c0 := if s1.stopHitDeadline < now2 then 0 else s1.stopHitCount
                  let s2 := { s1 with stopHitDeadline := now2 + 2.5, stopHitCount := c0 + 1 }
                  if s2.stopHitCount < 2 then ⟨s2, false, 0⟩
                  else ⟨{ s2 with stopRing := [], stopLastCheck := now3 }, true, 1⟩
                else
                  ⟨{ s1 with stopHitCount := 0, stopRing := [], stopLastCheck := now3 },
                   true, 1⟩

end AbstractVoice

namespace AbstractVoice

/-- Closed form of the token state after n speaks: the freshly allocated
tokens are 1, 2, ..., n in spawn order and every token below n has been
set. -/
theorem runSpeaks_closed_form (n : ℕ) :
    runSpeaks n =
      { nextToken := n + 1, current := n, cancelled := (List.range n).reverse,
        workers := List.range' 1 n } := by
  induction n with
  | zero => rfl
  | succ n ih =>
      rw [runSpeaks, ih]
      simp [speakClone, List.range_succ, List.range'_concat, Nat.add_comm]

/-! ## Theorems for claims C5, C7, C6, C2, C9, C10 -/

/-- Concrete two-sample frame used to refute the exact-round length claim. -/
def exC5 : List ℚ := [0, 1]

/-- C5 counterexample: for the two-sample frame and rates 48000 -> 1 the
source returns one sample (max(1, round(...)) in the source), while
round(len * dst_sr / src_sr) = round(2/48000) = 0, under banker rounding and
under round-half-up alike.  The claim "length exactly round(...)" is false. -/
theorem c5_length_counterexample :
    (linear_resample_mono exC5 48000 1).length ≠
      (roundHalfEven (((exC5.length : ℚ) * 1) / 48000)).toNat ∧
    (linear_resample_mono exC5 48000 1).length ≠
      (round (((exC5.length : ℚ) * 1) / 48000)).toNat := by
  have hlen : (linear_resample_mono exC5 48000 1).length = 1 := by
    norm_num [linear_resample_mono, exC5, roundHalfEven]
  have h1 : roundHalfEven (((exC5.length : ℚ) * 1) / 48000) = 0 := by
    norm_num [roundHalfEven, exC5]
  have h2 : round (((exC5.length : ℚ) * 1) / 48000) = 0 := by
    norm_num [round_eq, exC5]
  constructor
  · rw [hlen, h1]; decide
  · rw [hlen, h2]; decide

/-- C5 (amended): linear_resample_mono returns the input unchanged when a
rate is nonpositive, the rates agree, or fewer than two samples are given;
otherwise the output length is max 1 (round(len * dst_sr / src_sr)) with
Python banker rounding. -/
theorem c5_resample_length (audio : List ℚ) (src_sr dst_sr : ℤ) :
    ((src_sr ≤ 0 ∨ dst_sr ≤ 0) → linear_resample_mono audio src_sr dst_sr = audio) ∧
    (src_sr = dst_sr → linear_resample_mono audio src_sr dst_sr = audio) ∧
    (audio.length < 2 → linear_resample_mono audio src_sr dst_sr = audio) ∧
    (0 < src_sr → 0 < dst_sr → src_sr ≠ dst_sr → 2 ≤ audio.length →
      (linear_resample_mono audio src_sr dst_sr).length =
        max 1 (roundHalfEven ((audio.length : ℚ) * ((dst_sr : ℚ) / (src_sr : ℚ)))).toNat) := by
  refine ⟨?_, ?_, ?_, ?_⟩
  · intro h
    simp [linear_resample_mono, h]
  · intro h
    by_cases h0 : src_sr ≤ 0 ∨ dst_sr ≤ 0 <;> simp [linear_resample_mono, h, h0]
  · intro h
    by_cases h0 : src_sr ≤ 0 ∨ dst_sr ≤ 0
    · simp [linear_resample_mono, h0]
    · by_cases h1 : src_sr = dst_sr <;> simp [linear_resample_mono, h0, h1, h]
  · intro h1 h2 h3 h4
    have h0 : ¬(src_sr ≤ 0 ∨ dst_sr ≤ 0) := by omega
    have h5 : ¬(audio.length < 2) := by omega
    simp [linear_resample_mono, h0, h3, h5]

/-- C5 witness: a concrete frame of four samples resampled from 2 Hz to
3 Hz has length max 1 (round 6) = 6. -/
theorem c5_resample_length_witness :
    (linear_resample_mono [0, 1, 2, 3] 2 3).length =
      max 1 (roundHalfEven (((([0, 1, 2, 3] : List ℚ).length : ℚ)) * ((3 : ℚ) / (2 : ℚ)))).toNat :=
  (c5_resample_length [0, 1, 2, 3] 2 3).2.2.2 (by decide) (by decide) (by decide) (by decide)

/-- Concrete mid-playback player state used against the clear_queue claim. -/
def exC7 : PlayerState :=
  { hasStream := true, queue := [[1, 2], [3]], isPlaying := true, paused := false,
    audioStarted := true, currentAudio := some [0, 1], currentPosition := 1 }

/-- C7 counterexample: clear_queue does not write is_playing, so after
clear_queue on a playing state the is_playing flag is still true; the claim
that is_playing is false after clear_queue is false on the source.  (The
reset of is_playing happens in stop_stream and in AdapterTTSEngine.stop,
not in clear_queue.) -/
theorem c7_clear_queue_counterexample :
    ¬ ((NonBlockingAudioPlayer.clear_queue exC7).isPlaying = false) := by
  decide

/-- C7 (amended): after clear_queue the queue is empty, the in-flight frame
is discarded (current_audio is none, current_position is 0), and every other
field, including is_playing, is unchanged. -/
theorem c7_clear_queue_state (p : PlayerState) :
    (NonBlockingAudioPlayer.clear_queue p).queue = [] ∧
    (NonBlockingAudioPlayer.clear_queue p).currentAudio = none ∧
    (NonBlockingAudioPlayer.clear_queue p).currentPosition = 0 ∧
    (NonBlockingAudioPlayer.clear_queue p).isPlaying = p.isPlaying ∧
    (NonBlockingAudioPlayer.clear_queue p).paused = p.paused ∧
    (NonBlockingAudioPlayer.clear_queue p).hasStream = p.hasStream ∧
    (NonBlockingAudioPlayer.clear_queue p).audioStarted = p.audioStarted := by
  simp [NonBlockingAudioPlayer.clear_queue]

/-- Recognizer flags with AEC disabled and barge-in enabled, used against
the FULL-mode claim. -/
def exC6 : RecFlags :=
  { listeningPaused := false, transcriptionsPaused := false,
    ttsInterruptEnabled := true, aecEnabled := false }

/-- C6 counterexample: in FULL mode with AEC disabled, _on_tts_start does
not invoke pause_tts_interrupt (the source returns immediately for full
mode), so tts_interrupt_enabled stays true; the claim that it is paused
exactly when AEC is disabled is false on the source. -/
theorem c6_full_mode_counterexample :
    ¬ ((onTtsStart "full" exC6).ttsInterruptEnabled = false) := by
  decide

/-- C6 (amended): in FULL mode the playback-start routing never invokes
pause_tts_interrupt regardless of the AEC switch (the recognizer flags are
left entirely unchanged, so transcriptions stay enabled), and the
playback-end routing invokes resume_tts_interrupt, leaving the other flags
unchanged. -/
theorem c6_full_mode_routing (r : RecFlags) :
    onTtsStart "full" r = r ∧
    onTtsEnd "full" r = { r with ttsInterruptEnabled := true } := by
  constructor
  · simp [onTtsStart]
  · simp [onTtsEnd, VoiceRecognizer.resume_tts_interrupt]

/-- C2: for every active voice mode and recognizer state, the recognizer
flags after stop_speaking equal the flags the natural playback-end routing
_on_tts_end would have produced, because stop_speaking explicitly invokes
the on-end routing after flushing the player. -/
theorem c2_stop_speaking_restores_recognizer (s : VMState)
    (heng : s.hasTtsEngine = true) (hrec : s.hasRecognizer = true)
    (hmode : s.voiceMode ∈ (["full", "wait", "stop", "ptt"] : List String)) :
    (stop_speaking s).1.recFlags = onTtsEnd s.voiceMode s.recFlags ∧
    (stop_speaking s).1.recFlags = (vmOnTtsEnd s).recFlags := by
  have h1 : (stop_speaking s).1.recFlags = onTtsEnd s.voiceMode s.recFlags := by
    simp [stop_speaking, heng, vmOnTtsEnd, hrec]
  refine ⟨h1, ?_⟩
  rw [h1]
  simp [vmOnTtsEnd, hrec]

/-- Recognizer flags mid-playback in STOP mode: transcriptions paused and
barge-in disabled. -/
def exC2Flags : RecFlags :=
  { listeningPaused := false, transcriptionsPaused := true,
    ttsInterruptEnabled := false, aecEnabled := false }

/-- Concrete manager state mid-playback in STOP mode. -/
def exC2 : VMState :=
  { voiceMode := "stop", hasTtsEngine := true, hasRecognizer := true,
    recFlags := exC2Flags, player := exC7, cancelSet := false }

/-- C2 witness: concrete check in STOP mode with transcriptions paused and
barge-in disabled mid-playback. -/
theorem c2_stop_speaking_witness :
    (stop_speaking exC2).1.recFlags = onTtsEnd "stop" exC2Flags :=
  (c2_stop_speaking_restores_recognizer exC2 rfl rfl (by decide)).1

/-- C9: a speak call with speed 1.0 (the default, or passed explicitly)
uses the stored manager speed, while a speak call with any other speed uses
that speed; set_speed accepts exactly the range [0.5, 2.0] and keeps the
stored speed otherwise. -/
theorem c9_speak_speed_selection :
    (∀ stored : ℚ, speakEffectiveSpeed 1 stored = stored) ∧
    (∀ speed stored : ℚ, speed ≠ 1 → speakEffectiveSpeed speed stored = speed) ∧
    (∀ stored v : ℚ, 0.5 ≤ v → v ≤ 2.0 → set_speed stored v = (v, true)) ∧
    (∀ stored v : ℚ, ¬(0.5 ≤ v ∧ v ≤ 2.0) → set_speed stored v = (stored, false)) := by
  refine ⟨?_, ?_, ?_, ?_⟩
  · intro stored; simp [speakEffectiveSpeed]
  · intro speed stored h; simp [speakEffectiveSpeed, h]
  · intro stored v h1 h2; simp [set_speed, h1, h2]
  · intro stored v h; simp [set_speed, h]

/-- C9 witness: with stored speed 1.5, speak(speed=1.0) synthesizes at 1.5,
speak(speed=0.8) synthesizes at 0.8, set_speed 1.5 was accepted, and
set_speed 3 is rejected. -/
theorem c9_speak_speed_witness :
    speakEffectiveSpeed 1 1.5 = 1.5 ∧ speakEffectiveSpeed 0.8 1.5 = 0.8 ∧
    set_speed 1 1.5 = (1.5, true) ∧ set_speed 1.5 3 = (1.5, false) :=
  ⟨c9_speak_speed_selection.1 1.5,
   c9_speak_speed_selection.2.1 0.8 1.5 (by norm_num),
   c9_speak_speed_selection.2.2.1 1 1.5 (by norm_num) (by norm_num),
   c9_speak_speed_selection.2.2.2 1.5 3 (by norm_num)⟩

/-- C10: a fresh VoiceManager has voice mode "wait", and set_voice_mode
accepts exactly full, wait, stop, ptt, leaving the mode unchanged (and
returning false) on any other string. -/
theorem c10_default_mode_and_set_voice_mode :
    initVoiceMode = "wait" ∧
    (∀ (s : VMState) (mode : String),
      mode ∈ (["full", "wait", "stop", "ptt"] : List String) →
        set_voice_mode s mode = ({ s with voiceMode := mode }, true)) ∧
    (∀ (s : VMState) (mode : String),
      mode ∉ (["full", "wait", "stop", "ptt"] : List String) →
        set_voice_mode s mode = (s, false)) := by
  refine ⟨rfl, ?_, ?_⟩
  · intro s mode h; simp [set_voice_mode, h]
  · intro s mode h; simp [set_voice_mode, h]

/-- C10 witness: concrete checks that "full" is accepted and "loud" is
rejected for a concrete manager state. -/
theorem c10_default_mode_witness :
    set_voice_mode
        { voiceMode := initVoiceMode, hasTtsEngine := true, hasRecognizer := false,
          recFlags := exC6, player := exC7, cancelSet := false } "full" =
      ({ voiceMode := "full", hasTtsEngine := true, hasRecognizer := false,
         recFlags := exC6, player := exC7, cancelSet := false }, true) ∧
    set_voice_mode
        { voiceMode := initVoiceMode, hasTtsEngine := true, hasRecognizer := false,
          recFlags := exC6, player := exC7, cancelSet := false } "loud" =
      ({ voiceMode := initVoiceMode, hasTtsEngine := true, hasRecognizer := false,
         recFlags := exC6, player := exC7, cancelSet := false }, false) :=
  ⟨c10_default_mode_and_set_voice_mode.2.1 _ "full" (by decide),
   c10_default_mode_and_set_voice_mode.2.2 _ "loud" (by decide)⟩

/-- C1: across any sequence of cloned speak calls, the cancel token captured
by each worker is distinct by identity from the token captured by every
other worker, and every worker except the most recent one has had its token
set, so once a new speak begins no prior worker can enqueue audio. -/
theorem c1_fresh_cancel_tokens :
    (∀ (n i j : ℕ) (hij : i < j) (hj : j < (runSpeaks n).workers.length),
      (runSpeaks n).workers.get ⟨i, Nat.lt_trans hij hj⟩ ≠
        (runSpeaks n).workers.get ⟨j, hj⟩) ∧
    (∀ (n i : ℕ) (hi : i + 1 < (runSpeaks n).workers.length),
      workerCanEnqueue (runSpeaks n)
        ((runSpeaks n).workers.get ⟨i, Nat.lt_of_succ_lt hi⟩) = false) := by
  constructor
  · intro n i j hij hj
    have hw : (runSpeaks n).workers = List.range' 1 n := by
      rw [runSpeaks_closed_form]
    have hlen : (runSpeaks n).workers.length = n := by rw [hw]; simp
    have h1 : (runSpeaks n).workers.get ⟨i, Nat.lt_trans hij hj⟩ = 1 + i := by
      simp [List.get_eq_getElem, hw]
    have h2 : (runSpeaks n).workers.get ⟨j, hj⟩ = 1 + j := by
      simp [List.get_eq_getElem, hw]
    rw [h1, h2]
    omega
  · intro n i hi
    have hw : (runSpeaks n).workers = List.range' 1 n := by
      rw [runSpeaks_closed_form]
    have hc : (runSpeaks n).cancelled = (List.range n).reverse := by
      rw [runSpeaks_closed_form]
    have hlen : (runSpeaks n).workers.length = n := by rw [hw]; simp
    have hilt : i < (runSpeaks n).workers.length := Nat.lt_of_succ_lt hi
    have h1g : (runSpeaks n).workers[i] = 1 + i := by
      simp [hw]
    have hmem : (1 + i) ∈ (runSpeaks n).cancelled := by
      rw [hc]
      simp only [List.mem_reverse, List.mem_range]
      omega
    simp [workerCanEnqueue]
    rw [h1g]
    exact hmem

/-! ### Structure of the normalized stop-phrase text -/

/-- Tokens produced by the space splitter are nonempty and space-free. -/
theorem splitSpAux_tokens : ∀ (s acc : List Char), ' ' ∉ acc →
    ∀ t ∈ splitSpAux s acc, t ≠ [] ∧ ' ' ∉ t := by
  intro s
  induction s with
  | nil =>
      intro acc hacc t ht
      by_cases h : acc.isEmpty
      · simp [splitSpAux, h] at ht
      · simp only [splitSpAux] at ht
        rw [if_neg h] at ht
        rw [List.mem_singleton] at ht
        subst ht
        refine ⟨?_, fun hm => hacc (List.mem_reverse.mp hm)⟩
        simp only [ne_eq, List.reverse_eq_nil_iff]
        intro hnil
        rw [hnil] at h
        exact h rfl
  | cons c rest ih =>
      intro acc hacc t ht
      simp only [splitSpAux] at ht
      by_cases hc : c = ' '
      · rw [if_pos hc] at ht
        by_cases ha : acc.isEmpty
        · rw [if_pos ha] at ht
          exact ih [] (by simp) t ht
        · rw [if_neg ha] at ht
          rcases List.mem_cons.mp ht with h1 | h2
          · subst h1
            refine ⟨?_, fun hm => hacc (List.mem_reverse.mp hm)⟩
            simp only [ne_eq, List.reverse_eq_nil_iff]
            intro hnil
            rw [hnil] at ha
            exact ha rfl
          · exact ih [] (by simp) t h2
      · rw [if_neg hc] at ht
        refine ih (c :: acc) ?_ t ht
        intro hm
        rcases List.mem_cons.mp hm with h | h
        · exact hc h.symm
        · exact hacc h

/-- Tokens of splitSp are nonempty and space-free. -/
theorem splitSp_tokens (s : List Char) :
    ∀ t ∈ splitSp s, t ≠ [] ∧ ' ' ∉ t :=
  splitSpAux_tokens s [] (by simp)

/-- Feeding a space-free token into the splitter moves it into the
accumulator. -/
theorem splitSpAux_token_append : ∀ (t : List Char), ' ' ∉ t →
    ∀ (l acc : List Char), splitSpAux (t ++ l) acc = splitSpAux l (t.reverse ++ acc) := by
  intro t
  induction t with
  | nil => intro _ l acc; simp
  | cons c t ih =>
      intro hc l acc
      have hcs : ¬(c = ' ') := fun h => hc (by rw [h]; exact List.mem_cons_self _ _)
      have hstep : (c :: t) ++ l = c :: (t ++ l) := rfl
      rw [hstep]
      simp only [splitSpAux]
      rw [if_neg hcs, ih (fun hm => hc (List.mem_cons_of_mem _ hm)) l (c :: acc)]
      simp

/-- Splitting the space-joined tokens recovers the tokens, provided every
token is nonempty and space-free. -/
theorem splitSp_joinToks : ∀ (ts : List (List Char)),
    (∀ t ∈ ts, t ≠ [] ∧ ' ' ∉ t) → splitSp (joinToks ts) = ts
  | [], _ => by simp [joinToks, splitSp, splitSpAux]
  | [t], h => by
      have ht := h t (by simp)
      have : splitSp (joinToks [t]) = splitSpAux (t ++ []) [] := by
        simp [joinToks, splitSp]
      rw [this, splitSpAux_token_append t ht.2 [] []]
      have hne : t.reverse.isEmpty = false := by
        simp [List.isEmpty_iff]
        exact ht.1
      simp [splitSpAux, hne]
  | t :: t2 :: ts, h => by
      have ht := h t (by simp)
      have hrec := splitSp_joinToks (t2 :: ts) (fun u hu => h u (List.mem_cons_of_mem _ hu))
      have hj : joinToks (t :: t2 :: ts) = t ++ ' ' :: joinToks (t2 :: ts) := by
        simp [joinToks]
      rw [splitSp, hj, splitSpAux_token_append t ht.2 _ [], List.append_nil]
      have hne : ¬(t.reverse.isEmpty = true) := by
        simp [List.isEmpty_iff]
        exact ht.1
      have hsp : splitSpAux (' ' :: joinToks (t2 :: ts)) t.reverse =
          t.reverse.reverse :: splitSpAux (joinToks (t2 :: ts)) [] := by
        simp only [splitSpAux]
        rw [if_pos trivial, if_neg hne]
      rw [hsp, List.reverse_reverse, ← splitSp, hrec]

/-- The tokens of a normalized text are exactly the alphanumeric tokens of
the mapped text. -/
theorem splitSp_normalize (s : List Char) :
    splitSp (normalize_stop_phrase s) = splitSp (s.map normChar) :=
  splitSp_joinToks _ (splitSp_tokens _)

/-- A normalized text is the space-join of its own tokens. -/
theorem joinToks_splitSp_normalize (s : List Char) :
    joinToks (splitSp (normalize_stop_phrase s)) = normalize_stop_phrase s := by
  rw [splitSp_normalize]
  rfl

/-- The space-join of nonempty tokens is nonempty. -/
theorem joinToks_ne_nil : ∀ (ts : List (List Char)), ts ≠ [] →
    (∀ t ∈ ts, t ≠ []) → joinToks ts ≠ []
  | [], h, _ => absurd rfl h
  | [t], _, h => by
      simpa [joinToks] using h t (by simp)
  | t :: t2 :: ts, _, h => by
      have ht := h t (by simp)
      simp only [joinToks, ne_eq, List.append_eq_nil]
      intro hcon
      exact ht hcon.1

/-- The first character of a space-join of nonempty space-free tokens is
not a space. -/
theorem joinToks_head_ne_space : ∀ (ts : List (List Char)),
    (∀ t ∈ ts, t ≠ [] ∧ ' ' ∉ t) → (joinToks ts).head? ≠ some ' '
  | [], _ => by simp [joinToks]
  | [t], h => by
      have ht := h t (by simp)
      cases t with
      | nil => exact absurd rfl ht.1
      | cons c t =>
          simp only [joinToks, List.head?_cons, ne_eq, Option.some.injEq]
          intro hcon
          exact ht.2 (by rw [hcon]; exact List.mem_cons_self _ _)
  | t :: t2 :: ts, h => by
      have ht := h t (by simp)
      cases t with
      | nil => exact absurd rfl ht.1
      | cons c t =>
          simp only [joinToks, List.cons_append, List.head?_cons, ne_eq, Option.some.injEq]
          intro hcon
          exact ht.2 (by rw [hcon]; exact List.mem_cons_self _ _)

/-- The last character of a space-join of nonempty space-free tokens is not
a space. -/
theorem joinToks_getLast_ne_space : ∀ (ts : List (List Char)),
    (∀ t ∈ ts, t ≠ [] ∧ ' ' ∉ t) → (joinToks ts).getLast? ≠ some ' '
  | [], _ => by simp [joinToks]
  | [t], h => by
      have ht := h t (by simp)
      simp only [joinToks, ne_eq]
      intro hcon
      rw [List.getLast?_eq_getLast_of_ne_nil ht.1, Option.some.injEq] at hcon
      exact ht.2 (hcon ▸ List.getLast_mem ht.1)
  | t :: t2 :: ts, h => by
      have hrec := joinToks_getLast_ne_space (t2 :: ts)
        (fun u hu => h u (List.mem_cons_of_mem _ hu))
      have hjoin : joinToks (t2 :: ts) ≠ [] :=
        joinToks_ne_nil (t2 :: ts) (by simp) (fun u hu => (h u (List.mem_cons_of_mem _ hu)).1)
      have hj : joinToks (t :: t2 :: ts) = t ++ ' ' :: joinToks (t2 :: ts) := by
        simp [joinToks]
      rw [hj, List.getLast?_append_cons]
      obtain ⟨x, l2, hx⟩ := List.exists_cons_of_ne_nil hjoin
      rw [hx, List.getLast?_cons_cons]
      rw [hx] at hrec
      exact hrec

/-- A nonempty normalized text does not begin with a space. -/
theorem normalize_head_ne_space (s : List Char) :
    (normalize_stop_phrase s).head? ≠ some ' ' :=
  joinToks_head_ne_space _ (splitSp_tokens _)

/-- A nonempty normalized text does not end with a space. -/
theorem normalize_getLast_ne_space (s : List Char) :
    (normalize_stop_phrase s).getLast? ≠ some ' ' :=
  joinToks_getLast_ne_space _ (splitSp_tokens _)

/-- An empty normalized phrase matches nothing: each disjunct of the
claim-side condition fails against a nonempty normalized text. -/
theorem empty_phrase_no_match (text : List Char) (hnt : normalize_stop_phrase text ≠ []) :
    ¬(normalize_stop_phrase text = ([] : List Char) ∨
      (([] : List Char) ++ [' ']) <+: normalize_stop_phrase text ∨
      (' ' :: ([] : List Char)) <:+ normalize_stop_phrase text ∨
      specialToleranceSpec (normalize_stop_phrase text) []) := by
  rintro (h | h | h | h)
  · exact hnt h
  · rcases h with ⟨u, hu⟩
    have hhd : (normalize_stop_phrase text).head? = some ' ' := by
      rw [← hu]; rfl
    exact normalize_head_ne_space text hhd
  · rcases h with ⟨u, hu⟩
    have hlast : (normalize_stop_phrase text).getLast? = some ' ' := by
      rw [← hu, List.getLast?_append_cons]
      rfl
    exact normalize_getLast_ne_space text hlast
  · rcases h.1 with h1 | h1 <;> exact absurd h1 (by decide)

/-- The decisive phrase-token test of the tolerance branch, transported to
the normalized phrase itself: a normalized phrase splits into [ok, stop]
exactly when it is the string "ok stop", and likewise for "okay stop". -/
theorem splitSp_normalize_eq_ok_stop (p : List Char) :
    (splitSp (normalize_stop_phrase p) = [okTok, stopTok] ↔
      normalize_stop_phrase p = "ok stop".data) ∧
    (splitSp (normalize_stop_phrase p) = [okayTok, stopTok] ↔
      normalize_stop_phrase p = "okay stop".data) := by
  constructor
  · constructor
    · intro h
      have := joinToks_splitSp_normalize p
      rw [h] at this
      rw [← this]
      decide
    · intro h
      rw [h]
      decide
  · constructor
    · intro h
      have := joinToks_splitSp_normalize p
      rw [h] at this
      rw [← this]
      decide
    · intro h
      rw [h]
      decide

/-! ### The Levenshtein DP of the source computes the textbook distance -/

/-- Edit distance of the empty word. -/
theorem levRec_nil_left (b : List Char) : levRec [] b = b.length := by
  simp [levRec]

/-- Edit distance against the empty word. -/
theorem levRec_nil_right (a : List Char) : levRec a [] = a.length := by
  cases a <;> simp [levRec]

/-- The defining recursion of levRec for two nonempty words. -/
theorem levRec_cons_cons (x y : Char) (xs ys : List Char) :
    levRec (x :: xs) (y :: ys) =
      min (levRec xs (y :: ys) + 1)
        (min (levRec (x :: xs) ys + 1) (levRec xs ys + (if x = y then 0 else 1))) := by
  rw [levRec]

set_option maxHeartbeats 1000000 in
/-- The edit-distance recursion also holds when peeling the last characters
instead of the first: the recurrence the DP of the source implements. -/
theorem levRec_append : ∀ (xs ys : List Char) (x y : Char),
    levRec (xs ++ [x]) (ys ++ [y]) =
      min (levRec xs (ys ++ [y]) + 1)
        (min (levRec (xs ++ [x]) ys + 1) (levRec xs ys + (if x = y then 0 else 1)))
  | [], [], x, y => by
      simp only [List.nil_append]
      rw [levRec_cons_cons]
  | [], y0 :: ys', x, y => by
      have ih := levRec_append [] ys' x y
      simp only [List.nil_append] at ih ⊢
      simp only [List.cons_append]
      rw [levRec_cons_cons x y0 [] (ys' ++ [y]), ih, levRec_cons_cons x y0 [] ys']
      simp only [levRec_nil_left, levRec_nil_right, List.length_append,
        List.length_cons, List.length_nil]
      generalize (if x = y then 0 else 1 : ℕ) = c
      generalize (if x = y0 then 0 else 1 : ℕ) = c0
      generalize levRec [x] ys' = B
      apply le_antisymm
      · simp only [le_min_iff, min_le_iff]
        omega
      · simp only [le_min_iff, min_le_iff]
        omega
  | x0 :: xs', [], x, y => by
      have ih := levRec_append xs' [] x y
      simp only [List.nil_append] at ih ⊢
      simp only [List.cons_append]
      rw [levRec_cons_cons x0 y (xs' ++ [x]) [], ih, levRec_cons_cons x0 y xs' []]
      simp only [levRec_nil_left, levRec_nil_right, List.length_append,
        List.length_cons, List.length_nil]
      generalize (if x = y then 0 else 1 : ℕ) = c
      generalize (if x0 = y then 0 else 1 : ℕ) = c1
      generalize levRec xs' [y] = D
      apply le_antisymm
      · simp only [le_min_iff, min_le_iff]
        omega
      · simp only [le_min_iff, min_le_iff]
        omega
  | x0 :: xs', y0 :: ys', x, y => by
      have ih1 := levRec_append xs' (y0 :: ys') x y
      have ih2 := levRec_append (x0 :: xs') ys' x y
      have ih3 := levRec_append xs' ys' x y
      simp only [List.cons_append] at ih1 ih2 ⊢
      rw [levRec_cons_cons x0 y0 (xs' ++ [x]) (ys' ++ [y]), ih1, ih2, ih3,
        levRec_cons_cons x0 y0 xs' (ys' ++ [y]),
        levRec_cons_cons x0 y0 (xs' ++ [x]) ys',
        levRec_cons_cons x0 y0 xs' ys']
      generalize (if x = y then 0 else 1 : ℕ) = c at *
      generalize (if x0 = y0 then 0 else 1 : ℕ) = c00 at *
      clear ih1 ih2 ih3
      generalize levRec xs' (y0 :: (ys' ++ [y])) = A1
      generalize levRec (xs' ++ [x]) (y0 :: ys') = A2
      generalize levRec xs' (y0 :: ys') = A3
      generalize levRec (x0 :: xs') (ys' ++ [y]) = A4
      generalize levRec (x0 :: (xs' ++ [x])) ys' = A5
      generalize levRec (x0 :: xs') ys' = A6
      generalize levRec xs' (ys' ++ [y]) = A7
      generalize levRec (xs' ++ [x]) ys' = A8
      generalize levRec xs' ys' = A9
      apply le_antisymm
      · simp only [le_min_iff, min_le_iff]
        omega
      · simp only [le_min_iff, min_le_iff]
        omega
termination_by xs ys _ _ => xs.length + ys.length

/-- Edit distance is invariant under reversing both words. -/
theorem levRec_reverse : ∀ (a b : List Char), levRec a.reverse b.reverse = levRec a b
  | [], b => by simp [levRec_nil_left, levRec_nil_right]
  | x :: xs, [] => by simp [levRec_nil_left, levRec_nil_right]
  | x :: xs, y :: ys => by
      have h1 := levRec_reverse xs (y :: ys)
      have h2 := levRec_reverse (x :: xs) ys
      have h3 := levRec_reverse xs ys
      rw [List.reverse_cons, List.reverse_cons, levRec_append]
      rw [← List.reverse_cons y ys, ← List.reverse_cons x xs]
      rw [h1, h2, h3, levRec_cons_cons]
termination_by a b => a.length + b.length

/-- Every invariant row keeps its leading entry exposed. -/
theorem prevRow_head (pr bs rq : List Char) :
    prevRow pr bs rq = levRec pr rq :: (prevRow pr bs rq).tail := by
  cases bs <;> rfl

/-- One DP row step maps the invariant row for pr to the invariant row for
ca :: pr (minus its leading entry). -/
theorem levRowAux_prevRow (ca : Char) (pr : List Char) :
    ∀ (bs rq : List Char),
      levRowAux bs (prevRow pr bs rq) (levRec (ca :: pr) rq) ca =
        (prevRow (ca :: pr) bs rq).tail
  | [], rq => by simp [prevRow, levRowAux]
  | cb :: bs, rq => by
      rw [show prevRow pr (cb :: bs) rq = levRec pr rq :: prevRow pr bs (cb :: rq) from rfl]
      rw [prevRow_head pr bs (cb :: rq)]
      simp only [levRowAux]
      rw [← prevRow_head pr bs (cb :: rq)]
      have hv : min (levRec pr (cb :: rq) + 1)
          (min (levRec (ca :: pr) rq + 1) (levRec pr rq + (if ca = cb then 0 else 1))) =
          levRec (ca :: pr) (cb :: rq) := (levRec_cons_cons ca cb pr rq).symm
      rw [hv, levRowAux_prevRow ca pr bs (cb :: rq)]
      rw [show prevRow (ca :: pr) (cb :: bs) rq =
        levRec (ca :: pr) rq :: prevRow (ca :: pr) bs (cb :: rq) from rfl]
      rw [List.tail_cons]
      exact (prevRow_head (ca :: pr) bs (cb :: rq)).symm

/-- The full DP fold maps the invariant row for pr to the invariant row for
the processed characters (reversed) on top of pr. -/
theorem levRows_prevRow (b : List Char) : ∀ (as pr : List Char),
    levRows b as (prevRow pr b []) (pr.length + 1) = prevRow (as.reverse ++ pr) b []
  | [], pr => by simp [levRows]
  | ca :: as, pr => by
      simp only [levRows]
      have hcur : levRec (ca :: pr) [] = pr.length + 1 := by
        rw [levRec_nil_right]; simp
      have hrow : (pr.length + 1) :: levRowAux b (prevRow pr b []) (pr.length + 1) ca =
          prevRow (ca :: pr) b [] := by
        rw [← hcur, levRowAux_prevRow ca pr b []]
        exact (prevRow_head (ca :: pr) b []).symm
      rw [hrow]
      have h2 : (ca :: as).reverse ++ pr = as.reverse ++ (ca :: pr) := by simp
      have h3 : pr.length + 1 + 1 = (ca :: pr).length + 1 := by simp
      rw [h2, h3, levRows_prevRow b as (ca :: pr)]

/-- The invariant row for the empty word is the integer ramp the source
initializes prev with. -/
theorem prevRow_nil_pr : ∀ (bs rq : List Char),
    prevRow [] bs rq = List.range' rq.length (bs.length + 1)
  | [], rq => by simp [prevRow, levRec_nil_left]
  | cb :: bs, rq => by
      simp only [prevRow, levRec_nil_left]
      rw [prevRow_nil_pr bs (cb :: rq)]
      simp [List.range'_succ]

/-- The last entry of an invariant row is the distance to the whole second
word. -/
theorem prevRow_getLastD (pr : List Char) : ∀ (bs rq : List Char) (d : ℕ),
    (prevRow pr bs rq).getLastD d = levRec pr (bs.reverse ++ rq)
  | [], rq, d => by simp [prevRow]
  | cb :: bs, rq, d => by
      simp only [prevRow]
      rw [List.getLastD_cons, prevRow_getLastD pr bs (cb :: rq) _]
      simp

/-- The DP of the source computes the textbook Levenshtein distance. -/
theorem levDist_eq_levRec (a b : List Char) : levDist a b = levRec a b := by
  unfold levDist
  have hinit : List.range (b.length + 1) = prevRow [] b [] := by
    rw [prevRow_nil_pr b []]
    simp [List.range_eq_range']
  rw [hinit]
  have hrows := levRows_prevRow b a []
  rw [show (([] : List Char).length + 1) = 1 from rfl] at hrows
  rw [hrows, prevRow_getLastD]
  simp [levRec_reverse]

/-- Equal words have distance zero: the first early exit of
_levenshtein_leq never changes the result. -/
theorem levRec_self : ∀ (a : List Char), levRec a a = 0
  | [] => by simp [levRec_nil_left]
  | x :: xs => by
      have ih := levRec_self xs
      have hx : (if x = x then 0 else 1 : ℕ) = 0 := by simp
      rw [levRec_cons_cons, ih, hx]
      omega

/-- The distance dominates the length gap: the length-difference early exit
of _levenshtein_leq never changes the result. -/
theorem levRec_length_gap : ∀ (a b : List Char),
    b.length - a.length ≤ levRec a b ∧ a.length - b.length ≤ levRec a b
  | [], b => by simp [levRec_nil_left]
  | x :: xs, [] => by simp [levRec_nil_right]
  | x :: xs, y :: ys => by
      have ih1 := levRec_length_gap xs (y :: ys)
      have ih2 := levRec_length_gap (x :: xs) ys
      have ih3 := levRec_length_gap xs ys
      rw [levRec_cons_cons]
      simp only [List.length_cons] at *
      generalize (if x = y then 0 else 1 : ℕ) = c at *
      omega
termination_by a b => a.length + b.length

/-- The tolerance branch agrees with its claim-side statement on normalized
phrases. -/
theorem specialOkStop_iff (nt p : List Char) :
    specialOkStop (splitSp (normalize_stop_phrase p)) (splitSp nt) = true ↔
      specialToleranceSpec nt (normalize_stop_phrase p) := by
  have hok := (splitSp_normalize_eq_ok_stop p).1
  have hokay := (splitSp_normalize_eq_ok_stop p).2
  unfold specialOkStop specialToleranceSpec
  by_cases hph : splitSp (normalize_stop_phrase p) = [okTok, stopTok] ∨
      splitSp (normalize_stop_phrase p) = [okayTok, stopTok]
  · rw [if_pos hph]
    have hph2 : normalize_stop_phrase p = "ok stop".data ∨
        normalize_stop_phrase p = "okay stop".data := by
      rcases hph with h | h
      · exact Or.inl (hok.mp h)
      · exact Or.inr (hokay.mp h)
    by_cases hlen : ((splitSp nt).length = 2 ∨ (splitSp nt).length = 3) ∧
        (splitSp nt).getLastD [] = stopTok
    · rw [if_pos hlen]
      constructor
      · intro hany
        refine ⟨hph2, hlen.1, hlen.2, ?_⟩
        simpa only [List.any_eq_true, Bool.or_eq_true, levenshtein_leq,
          decide_eq_true_eq, levDist_eq_levRec] using hany
      · rintro ⟨-, -, -, hex⟩
        simpa only [List.any_eq_true, Bool.or_eq_true, levenshtein_leq,
          decide_eq_true_eq, levDist_eq_levRec] using hex
    · rw [if_neg hlen]
      simp only [Bool.false_eq_true, false_iff]
      intro hcon
      exact hlen ⟨hcon.2.1, hcon.2.2.1⟩
  · rw [if_neg hph]
    simp only [Bool.false_eq_true, false_iff]
    intro hcon
    rcases hcon.1 with h | h
    · exact hph (Or.inl (hok.mpr h))
    · exact hph (Or.inr (hokay.mpr h))

/-- C3: is_stop_phrase agrees exactly with the matching rules of the
specification (equality, phrase-plus-space prefix, space-plus-phrase
suffix, and the ok-stop tolerance, all over normalized text and phrases);
in particular the example text with the apostrophe does not match the
phrase "stop", and a text with empty normalization never matches. -/
theorem c3_stop_phrase_match :
    (∀ (text : List Char) (phrases : List (List Char)),
      is_stop_phrase text phrases = true ↔ stopPhraseSpec text phrases) ∧
    is_stop_phrase dontStopNow [stopTok] = false ∧
    (∀ (text : List Char) (phrases : List (List Char)),
      normalize_stop_phrase text = [] → is_stop_phrase text phrases = false) := by
  refine ⟨?_, by decide, ?_⟩
  · intro text phrases
    by_cases hnt : (normalize_stop_phrase text).isEmpty
    · have hnil : normalize_stop_phrase text = [] := by
        simpa [List.isEmpty_iff] using hnt
      simp [is_stop_phrase, hnt, stopPhraseSpec, hnil]
    · have hne : normalize_stop_phrase text ≠ [] := by
        simpa [List.isEmpty_iff] using hnt
      simp only [is_stop_phrase, hnt, Bool.false_eq_true, if_neg,
        List.any_eq_true, stopPhraseSpec, hne, ne_eq, not_false_eq_true, true_and]
      constructor
      · rintro ⟨p, hp, hmatch⟩
        refine ⟨p, hp, ?_⟩
        by_cases hpe : p.isEmpty
        · rw [if_pos hpe] at hmatch
          exact absurd hmatch (by simp)
        · rw [if_neg hpe] at hmatch
          by_cases hphe : (normalize_stop_phrase p).isEmpty
          · rw [if_pos hphe] at hmatch
            exact absurd hmatch (by simp)
          · rw [if_neg hphe] at hmatch
            simp only [Bool.or_eq_true, beq_iff_eq, List.isPrefixOf_iff_prefix,
              List.isSuffixOf_iff_suffix, specialOkStop_iff] at hmatch
            tauto
      · rintro ⟨p, hp, hcond⟩
        refine ⟨p, hp, ?_⟩
        by_cases hphe : (normalize_stop_phrase p).isEmpty
        · exfalso
          have hnil : normalize_stop_phrase p = [] := by
            simpa [List.isEmpty_iff] using hphe
          rw [hnil] at hcond
          exact empty_phrase_no_match text hne hcond
        · have hpe : ¬p.isEmpty := by
            intro hcon
            have : p = [] := by simpa [List.isEmpty_iff] using hcon
            rw [this] at hphe
            exact hphe (by decide)
          rw [if_neg hpe, if_neg hphe]
          simp only [Bool.or_eq_true, beq_iff_eq, List.isPrefixOf_iff_prefix,
            List.isSuffixOf_iff_suffix, specialOkStop_iff]
          tauto
  · intro text phrases h
    simp [is_stop_phrase, h]

/-- C3 witness: a text of punctuation only normalizes to the empty string
and is rejected. -/
theorem c3_stop_phrase_match_witness :
    is_stop_phrase "!!!".data [stopTok] = false :=
  c3_stop_phrase_match.2.2 "!!!".data [stopTok] (by decide)

/-- C4 (code bug): in the rolling detector, a first transcript of exactly
"ok stop" does not invoke stop_callback.  The matcher scans the phrase list
["stop", "ok stop", "okay stop"] in order, and "ok stop" already matches
the phrase "stop" through the space-plus-suffix rule, so the detector takes
the bare-stop confirmation path (hit count one, no callback) although its
own comment reserves confirmation for bare "stop" and the specification
grants single-hit acceptance to "ok stop".  The run starts from the
recognizer initial state with transcriptions paused (as during playback),
at a time past the rate limit. -/
theorem c4_ok_stop_first_hit_no_callback :
    playbackStopDetect = { initStopDetect with transcriptionsPaused := true } ∧
    match_stop_phrase "ok stop".data stopPhrasesInit = some stopTok ∧
    (maybe_detect_stop_phrase_continuous playbackStopDetect
        [0] 1 1 1 (some "ok stop".data)).fired = false ∧
    (maybe_detect_stop_phrase_continuous playbackStopDetect
        [0] 1 1 1 (some "ok stop".data)).callbackCalls = 0 ∧
    (maybe_detect_stop_phrase_continuous playbackStopDetect
        [0] 1 1 1 (some "ok stop".data)).state.stopHitCount = 1 := by
  have hm : match_stop_phrase "ok stop".data stopPhrasesInit = some stopTok := by decide
  have hw : ¬(4 < (splitWs "ok stop".data).length) := by decide
  refine ⟨rfl, hm, ?_, ?_, ?_⟩ <;>
    norm_num [maybe_detect_stop_phrase_continuous, playbackStopDetect, hm, hw]

/-- C8: with the default sanitize flag, speak passes the TTS adapter the
sanitized text (for the concrete Markdown input exactly the expected plain
text), and with the flag false the text is passed unchanged. -/
theorem c8_sanitize_markdown :
    sanitize_markdown_for_speech "# Title **bold** *italics*" = "Title bold italics" ∧
    (∀ t : String, speakText t true none =
      Except.ok (sanitize_markdown_for_speech t)) ∧
    (∀ t : String, speakText t false none = Except.ok t) := by
  refine ⟨by decide, ?_, ?_⟩
  · intro t; rfl
  · intro t; rfl

/-- C1 witness: after three speak calls the first and third workers hold
distinct tokens and the first worker can no longer enqueue audio. -/
theorem c1_fresh_cancel_tokens_witness :
    (runSpeaks 3).workers.get ⟨0, by decide⟩ ≠ (runSpeaks 3).workers.get ⟨2, by decide⟩ ∧
    workerCanEnqueue (runSpeaks 3) ((runSpeaks 3).workers.get ⟨0, by decide⟩) = false :=
  ⟨c1_fresh_cancel_tokens.1 3 0 2 (by decide) (by decide),
   c1_fresh_cancel_tokens.2 3 0 (by decide)⟩

end AbstractVoice
